import Mathlib

/-!
Shallow embedding of the AIToDoList record store (`src/app/repository.py`),
its payload schemas (`src/app/schemas.py`) and the view projection / list
ordering in `src/app/main.py`.

Conventions of the embedding:
* Python dicts holding task records always carry the full key set produced by
  `TaskCreate.model_dump()`, so a task record is a structure whose fields are
  `Option`-valued exactly where JSON `null` can occur.
* Staff records are built with `model_dump(exclude_unset=True)`, so an
  optional staff field distinguishes "key absent" (`none`) from
  "key present with value v" (`some v`, where `v : Option String` is `none`
  for JSON `null`).  Partial-update payloads use the same outer/inner
  `Option` encoding: the outer layer is "field was explicitly set".
* `dict.update` therefore becomes a per-field merge: a field present in the
  payload overwrites, an absent one is kept.
* Dates are represented by their ISO strings (the repository coerces
  `date` values to `str` before storing).
* Persistence is modelled at the JSON-value level: the state carries the
  JSON tree last written to `tasks.json` / `staff.json`, and `_persist_*`
  re-serialises the whole in-memory collection into it.
* Python exceptions (`KeyError`, pydantic validation errors) become
  `Except Err`; every mutating operation returns the resulting state next to
  the `Except`, mirroring the statement order of the Python method so that
  "no partial mutation on failure" is a fact about the translation, not an
  artefact of it.
-/

namespace AIToDoList

/-- JSON values, as far as the two data files use them. -/
inductive Json where
  | null : Json
  | num (n : Int) : Json
  | str (s : String) : Json
  | arr (elems : List Json) : Json
  | obj (fields : List (String × Json)) : Json

/-- Errors raised by the store / the schema layer: `KeyError` → `notFound`,
pydantic rejection → `validationFailed`. -/
inductive Err where
  | notFound : Err
  | validationFailed : Err
deriving DecidableEq

/-- A task record as stored in `self._tasks`: every key produced by
`TaskCreate.model_dump()` plus `id`.  Nullable values are `Option`s. -/
structure TaskRecord where
  id : Int
  title : Option String
  description : Option String
  owner_id : Option Int
  created_by : Option String
  due_date : Option String
  status : Option String
  department : Option String
  priority : Option String
  quadrant : Option Int
deriving DecidableEq

/-- A staff record as stored in `self._staff`: `id` and `name` are always
present (`StaffCreate.name` is required); the remaining keys exist only when
the creating/updating payload set them (`exclude_unset=True`). -/
structure StaffRecord where
  id : Int
  name : Option String
  department : Option (Option String)
  photo : Option (Option String)
  photo_q1 : Option (Option String)
  photo_q2 : Option (Option String)
  photo_q3 : Option (Option String)
  photo_q4 : Option (Option String)
deriving DecidableEq

/-- `schemas.TaskCreate` after pydantic validation (defaults applied, the
`due_date` already coerced to its ISO string by `_normalize_task`). -/
structure TaskCreate where
  title : String
  description : Option String
  owner_id : Int
  created_by : Option String
  due_date : Option String
  status : String
  department : Option String
  priority : String
  quadrant : Int
deriving DecidableEq

/-- `schemas.TaskUpdate` under `model_dump(exclude_unset=True)`: the outer
`Option` is "field explicitly present in the payload", the inner one is the
(possibly `null`) value. -/
structure TaskUpdate where
  title : Option (Option String)
  description : Option (Option String)
  owner_id : Option (Option Int)
  created_by : Option (Option String)
  due_date : Option (Option String)
  status : Option (Option String)
  department : Option (Option String)
  priority : Option (Option String)
  quadrant : Option (Option Int)
deriving DecidableEq

/-- `schemas.StaffCreate` under `model_dump(exclude_unset=True)`. -/
structure StaffCreate where
  name : String
  department : Option (Option String)
  photo : Option (Option String)
  photo_q1 : Option (Option String)
  photo_q2 : Option (Option String)
  photo_q3 : Option (Option String)
  photo_q4 : Option (Option String)
deriving DecidableEq

/-- `schemas.StaffUpdate` under `model_dump(exclude_unset=True)`. -/
structure StaffUpdate where
  name : Option (Option String)
  department : Option (Option String)
  photo : Option (Option String)
  photo_q1 : Option (Option String)
  photo_q2 : Option (Option String)
  photo_q3 : Option (Option String)
  photo_q4 : Option (Option String)
deriving DecidableEq

/-- The empty partial payload `TaskUpdate()` (no field set). -/
def emptyTaskUpdate : TaskUpdate :=
  { title := none, description := none, owner_id := none, created_by := none,
    due_date := none, status := none, department := none, priority := none,
    quadrant := none }

/-- The empty partial payload `StaffUpdate()` (no field set). -/
def emptyStaffUpdate : StaffUpdate :=
  { name := none, department := none, photo := none, photo_q1 := none,
    photo_q2 := none, photo_q3 := none, photo_q4 := none }

/-- In-memory state of `DataRepository` plus the JSON trees currently held by
the two data files. -/
structure RepoState where
  tasks : List TaskRecord
  staff : List StaffRecord
  nextTaskId : Int
  nextStaffId : Int
  tasksFile : Json
  staffFile : Json

/-- The record a `TaskCreate` payload turns into once `data["id"]` is
assigned (`create_task`). -/
def TaskCreate.toRecord (p : TaskCreate) (id : Int) : TaskRecord :=
  { id := id, title := some p.title, description := p.description,
    owner_id := some p.owner_id, created_by := p.created_by,
    due_date := p.due_date, status := some p.status,
    department := p.department, priority := some p.priority,
    quadrant := some p.quadrant }

/-- The record a `StaffCreate` payload turns into once `data["id"]` is
assigned (`create_staff`). -/
def StaffCreate.toRecord (p : StaffCreate) (id : Int) : StaffRecord :=
  { id := id, name := some p.name, department := p.department,
    photo := p.photo, photo_q1 := p.photo_q1, photo_q2 := p.photo_q2,
    photo_q3 := p.photo_q3, photo_q4 := p.photo_q4 }

/-- `task.update(update_data)`: every key present in the payload overwrites
the stored value, every absent key is kept. -/
def applyTaskUpdate (t : TaskRecord) (p : TaskUpdate) : TaskRecord :=
  { id := t.id,
    title := p.title.getD t.title,
    description := p.description.getD t.description,
    owner_id := p.owner_id.getD t.owner_id,
    created_by := p.created_by.getD t.created_by,
    due_date := p.due_date.getD t.due_date,
    status := p.status.getD t.status,
    department := p.department.getD t.department,
    priority := p.priority.getD t.priority,
    quadrant := p.quadrant.getD t.quadrant }

/-- `staff.update(update_data)` with the presence-aware staff encoding:
a field set in the payload makes the key present with the payload's value. -/
def applyStaffUpdate (r : StaffRecord) (p : StaffUpdate) : StaffRecord :=
  { id := r.id,
    name := p.name.getD r.name,
    department := p.department.or r.department,
    photo := p.photo.or r.photo,
    photo_q1 := p.photo_q1.or r.photo_q1,
    photo_q2 := p.photo_q2.or r.photo_q2,
    photo_q3 := p.photo_q3.or r.photo_q3,
    photo_q4 := p.photo_q4.or r.photo_q4 }

/-- Replace the first element satisfying `p` by its image under `f`,
returning the new list and that image; `none` when no element matches.
This is `get_task` + in-place `dict` mutation in one step. -/
def updateFirst (p : α → Bool) (f : α → α) : List α → Option (List α × α)
  | [] => none
  | x :: xs =>
    if p x then some (f x :: xs, f x)
    else (updateFirst p f xs).map (fun r => (x :: r.1, r.2))

/-- Remove the first element satisfying `p`; `none` when no element matches.
This is the index scan + `pop` in `delete_task` / `delete_staff`. -/
def removeFirst (p : α → Bool) : List α → Option (List α)
  | [] => none
  | x :: xs => if p x then some xs else (removeFirst p xs).map (x :: ·)

/-- JSON encoding of an `Option String` value (`null` for `None`). -/
def encOptStr : Option String → Json
  | none => Json.null
  | some s => Json.str s

/-- JSON encoding of an `Option Int` value (`null` for `None`). -/
def encOptInt : Option Int → Json
  | none => Json.null
  | some n => Json.num n

/-- `json.dumps` of one task dict (keys in `model_dump` order, `id` last,
exactly as `create_task` builds the dict). -/
def encodeTask (t : TaskRecord) : Json :=
  Json.obj [("title", encOptStr t.title),
            ("description", encOptStr t.description),
            ("owner_id", encOptInt t.owner_id),
            ("created_by", encOptStr t.created_by),
            ("due_date", encOptStr t.due_date),
            ("status", encOptStr t.status),
            ("department", encOptStr t.department),
            ("priority", encOptStr t.priority),
            ("quadrant", encOptInt t.quadrant),
            ("id", Json.num t.id)]

/-- One optional staff entry: no key at all when the field was never set. -/
def staffField (k : String) : Option (Option String) → List (String × Json)
  | none => []
  | some v => [(k, encOptStr v)]

/-- `json.dumps` of one staff dict (only the keys that are present). -/
def encodeStaff (r : StaffRecord) : Json :=
  Json.obj ([("name", encOptStr r.name)]
    ++ staffField "department" r.department
    ++ staffField "photo" r.photo
    ++ staffField "photo_q1" r.photo_q1
    ++ staffField "photo_q2" r.photo_q2
    ++ staffField "photo_q3" r.photo_q3
    ++ staffField "photo_q4" r.photo_q4
    ++ [("id", Json.num r.id)])

/-- First binding of a key in a JSON object body (dict lookup). -/
def lookupField : List (String × Json) → String → Option Json
  | [], _ => none
  | (k, v) :: rest, key => if k == key then some v else lookupField rest key

/-- Decode a possibly-`null` string value. -/
def decOptStr : Json → Option (Option String)
  | Json.null => some none
  | Json.str s => some (some s)
  | _ => none

/-- Decode a possibly-`null` integer value. -/
def decOptInt : Json → Option (Option Int)
  | Json.null => some none
  | Json.num n => some (some n)
  | _ => none

/-- Decode a required value under key `k`. -/
def reqField (fs : List (String × Json)) (k : String)
    (dec : Json → Option α) : Option α :=
  (lookupField fs k).bind dec

/-- Decode a presence-aware staff field: absent key ↦ `none`. -/
def optField (fs : List (String × Json)) (k : String) :
    Option (Option (Option String)) :=
  match lookupField fs k with
  | none => some none
  | some j => (decOptStr j).map some

/-- Read one task record back from its JSON object. -/
def decodeTask : Json → Option TaskRecord
  | Json.obj fs =>
    match reqField fs "id" (fun j => match j with | Json.num n => some n | _ => none),
          reqField fs "title" decOptStr,
          reqField fs "description" decOptStr,
          reqField fs "owner_id" decOptInt,
          reqField fs "created_by" decOptStr,
          reqField fs "due_date" decOptStr,
          reqField fs "status" decOptStr,
          reqField fs "department" decOptStr,
          reqField fs "priority" decOptStr,
          reqField fs "quadrant" decOptInt with
    | some id, some title, some description, some owner_id, some created_by,
      some due_date, some status, some department, some priority, some quadrant =>
      some { id := id, title := title, description := description,
             owner_id := owner_id, created_by := created_by,
             due_date := due_date, status := status, department := department,
             priority := priority, quadrant := quadrant }
    | _, _, _, _, _, _, _, _, _, _ => none
  | _ => none

/-- Read one staff record back from its JSON object. -/
def decodeStaff : Json → Option StaffRecord
  | Json.obj fs =>
    match reqField fs "id" (fun j => match j with | Json.num n => some n | _ => none),
          reqField fs "name" decOptStr,
          optField fs "department",
          optField fs "photo",
          optField fs "photo_q1",
          optField fs "photo_q2",
          optField fs "photo_q3",
          optField fs "photo_q4" with
    | some id, some name, some department, some photo, some p1, some p2,
      some p3, some p4 =>
      some { id := id, name := name, department := department, photo := photo,
             photo_q1 := p1, photo_q2 := p2, photo_q3 := p3, photo_q4 := p4 }
    | _, _, _, _, _, _, _, _ => none
  | _ => none

/-- Decode a list of task objects element by element. -/
def decodeTaskList : List Json → Option (List TaskRecord)
  | [] => some []
  | j :: js =>
    match decodeTask j, decodeTaskList js with
    | some t, some ts => some (t :: ts)
    | _, _ => none

/-- Decode a list of staff objects element by element. -/
def decodeStaffList : List Json → Option (List StaffRecord)
  | [] => some []
  | j :: js =>
    match decodeStaff j, decodeStaffList js with
    | some r, some rs => some (r :: rs)
    | _, _ => none

/-- `json.loads(tasks.json)` interpreted as the task collection. -/
def decodeTasks : Json → Option (List TaskRecord)
  | Json.arr js => decodeTaskList js
  | _ => none

/-- `json.loads(staff.json)` interpreted as the staff collection. -/
def decodeStaffs : Json → Option (List StaffRecord)
  | Json.arr js => decodeStaffList js
  | _ => none

/-- `_persist_tasks`: rewrite the whole task file from memory. -/
def persistTasks (s : RepoState) : RepoState :=
  { s with tasksFile := Json.arr (s.tasks.map encodeTask) }

/-- `_persist_staff`: rewrite the whole staff file from memory. -/
def persistStaff (s : RepoState) : RepoState :=
  { s with staffFile := Json.arr (s.staff.map encodeStaff) }

/-- Maximum of a nonempty id list (`max(task["id"] for task in records)`). -/
def listMax : List Int → Int
  | [] => 0
  | [x] => x
  | x :: y :: ys => max x (listMax (y :: ys))

/-- `_calculate_next_id`. -/
def calculateNextId (ids : List Int) : Int :=
  match ids with
  | [] => 1
  | _ => listMax ids + 1

/-- `DataRepository.__init__` after `_load_json`: collections as decoded from
(or defaulted for) the two files, counters seeded from the loaded maxima;
the files themselves are not rewritten at startup. -/
def initState (tasks : List TaskRecord) (staff : List StaffRecord)
    (tasksFile staffFile : Json) : RepoState :=
  { tasks := tasks, staff := staff,
    nextTaskId := calculateNextId (tasks.map (·.id)),
    nextStaffId := calculateNextId (staff.map (·.id)),
    tasksFile := tasksFile, staffFile := staffFile }

/-- `DataRepository.get_task`. -/
def get_task (s : RepoState) (task_id : Int) : Except Err TaskRecord :=
  match s.tasks.find? (fun t => t.id == task_id) with
  | some t => Except.ok t
  | none => Except.error Err.notFound

/-- `DataRepository.get_staff`. -/
def get_staff (s : RepoState) (staff_id : Int) : Except Err StaffRecord :=
  match s.staff.find? (fun r => r.id == staff_id) with
  | some r => Except.ok r
  | none => Except.error Err.notFound

/-- `DataRepository.create_task`. -/
def create_task (s : RepoState) (payload : TaskCreate) : TaskRecord × RepoState :=
  let data := payload.toRecord s.nextTaskId
  (data, persistTasks { s with tasks := s.tasks ++ [data],
                               nextTaskId := s.nextTaskId + 1 })

/-- `DataRepository.update_task`. -/
def update_task (s : RepoState) (task_id : Int) (payload : TaskUpdate) :
    Except Err TaskRecord × RepoState :=
  match updateFirst (fun t => t.id == task_id) (fun t => applyTaskUpdate t payload) s.tasks with
  | none => (Except.error Err.notFound, s)
  | some (ts, r) => (Except.ok r, persistTasks { s with tasks := ts })

/-- `DataRepository.delete_task`. -/
def delete_task (s : RepoState) (task_id : Int) : Except Err Unit × RepoState :=
  match removeFirst (fun t => t.id == task_id) s.tasks with
  | none => (Except.error Err.notFound, s)
  | some ts => (Except.ok (), persistTasks { s with tasks := ts })

/-- `DataRepository.move_task`: note that no range check happens here. -/
def move_task (s : RepoState) (task_id : Int) (quadrant : Int) :
    Except Err TaskRecord × RepoState :=
  match updateFirst (fun t => t.id == task_id)
      (fun t => { t with quadrant := some quadrant }) s.tasks with
  | none => (Except.error Err.notFound, s)
  | some (ts, r) => (Except.ok r, persistTasks { s with tasks := ts })

/-- `DataRepository.create_staff`. -/
def create_staff (s : RepoState) (payload : StaffCreate) : StaffRecord × RepoState :=
  let data := payload.toRecord s.nextStaffId
  (data, persistStaff { s with staff := s.staff ++ [data],
                               nextStaffId := s.nextStaffId + 1 })

/-- `DataRepository.update_staff`. -/
def update_staff (s : RepoState) (staff_id : Int) (payload : StaffUpdate) :
    Except Err StaffRecord × RepoState :=
  match updateFirst (fun r => r.id == staff_id) (fun r => applyStaffUpdate r payload) s.staff with
  | none => (Except.error Err.notFound, s)
  | some (rs, r) => (Except.ok r, persistStaff { s with staff := rs })

/-- `DataRepository.delete_staff`. -/
def delete_staff (s : RepoState) (staff_id : Int) : Except Err Unit × RepoState :=
  match removeFirst (fun r => r.id == staff_id) s.staff with
  | none => (Except.error Err.notFound, s)
  | some rs => (Except.ok (), persistStaff { s with staff := rs })

/-- `DataRepository.staff_map`: Python builds a dict by forward iteration, so
a later entry with the same id wins; `.get` then reads that dict. -/
def staff_map (staff : List StaffRecord) : Int → Option StaffRecord :=
  fun i => staff.foldl (fun acc r => if r.id == i then some r else acc) none

/-- The serialized task view: every task field plus the resolved `owner`. -/
structure TaskView where
  id : Int
  title : Option String
  description : Option String
  owner_id : Option Int
  created_by : Option String
  due_date : Option String
  status : Option String
  department : Option String
  priority : Option String
  quadrant : Option Int
  owner : Option StaffRecord
deriving DecidableEq

/-- `repository.serialize_task`: `{**task, "owner": staff_map.get(task.get("owner_id"))}`. -/
def serialize_task (t : TaskRecord) (m : Int → Option StaffRecord) : TaskView :=
  { id := t.id, title := t.title, description := t.description,
    owner_id := t.owner_id, created_by := t.created_by,
    due_date := t.due_date, status := t.status, department := t.department,
    priority := t.priority, quadrant := t.quadrant,
    owner := t.owner_id.bind m }

/-- The sort key of `_serialized_tasks`:
`(item["quadrant"], item.get("due_date") or "")`. -/
def sortKey (t : TaskView) : Int × String :=
  (t.quadrant.getD 0, t.due_date.getD "")

/-- Python tuple comparison of the sort keys (lexicographic). -/
def taskLE (a b : TaskView) : Prop :=
  (sortKey a).1 < (sortKey b).1 ∨
    ((sortKey a).1 = (sortKey b).1 ∧ (sortKey a).2 ≤ (sortKey b).2)

instance : DecidableRel taskLE := fun a b => by
  unfold taskLE; exact inferInstance

instance : IsTotal TaskView taskLE where
  total a b := by
    unfold taskLE
    rcases lt_trichotomy (sortKey a).1 (sortKey b).1 with h | h | h
    · exact Or.inl (Or.inl h)
    · rcases le_total (sortKey a).2 (sortKey b).2 with h2 | h2
      · exact Or.inl (Or.inr ⟨h, h2⟩)
      · exact Or.inr (Or.inr ⟨h.symm, h2⟩)
    · exact Or.inr (Or.inl h)

instance : IsTrans TaskView taskLE where
  trans a b c hab hbc := by
    unfold taskLE at *
    rcases hab with h1 | ⟨h1, h1'⟩ <;> rcases hbc with h2 | ⟨h2, h2'⟩
    · exact Or.inl (h1.trans h2)
    · exact Or.inl (h2 ▸ h1)
    · exact Or.inl (h1 ▸ h2)
    · exact Or.inr ⟨h1.trans h2, h1'.trans h2'⟩

/-- `tasks.sort(key=...)` in `_serialized_tasks`: a stable ascending sort by
`sortKey` (Python's sort is stable; so is insertion sort). -/
def sortTasks (l : List TaskView) : List TaskView :=
  List.insertionSort taskLE l

/-- `main._serialized_tasks`. -/
def serializedTasks (s : RepoState) : List TaskView :=
  sortTasks (s.tasks.map (fun t => serialize_task t (staff_map s.staff)))

/-- `schemas.TaskQuadrantUpdate`: pydantic rejects a quadrant outside `[1,4]`
before the handler body runs. -/
def taskQuadrantUpdateValidate (quadrant : Int) : Except Err Int :=
  if 1 ≤ quadrant ∧ quadrant ≤ 4 then Except.ok quadrant
  else Except.error Err.validationFailed

/-- `main.api_move_task` including the payload validation performed by
FastAPI/pydantic on `TaskQuadrantUpdate` and the `_task_or_404` pre-check. -/
def apiMoveTask (s : RepoState) (task_id : Int) (quadrant : Int) :
    Except Err TaskRecord × RepoState :=
  match taskQuadrantUpdateValidate quadrant with
  | Except.error e => (Except.error e, s)
  | Except.ok q =>
    match get_task s task_id with
    | Except.error e => (Except.error e, s)
    | Except.ok _ => move_task s task_id q

/-- One repository call, for reasoning about whole sessions. -/
inductive Op where
  | createTask (p : TaskCreate) : Op
  | updateTask (id : Int) (p : TaskUpdate) : Op
  | deleteTask (id : Int) : Op
  | moveTask (id : Int) (q : Int) : Op
  | createStaff (p : StaffCreate) : Op
  | updateStaff (id : Int) (p : StaffUpdate) : Op
  | deleteStaff (id : Int) : Op
  | getTask (id : Int) : Op
  | getStaff (id : Int) : Op

/-- State after one call (a failed call, like a read, changes nothing). -/
def applyOp (s : RepoState) : Op → RepoState
  | Op.createTask p => (create_task s p).2
  | Op.updateTask id p => (update_task s id p).2
  | Op.deleteTask id => (delete_task s id).2
  | Op.moveTask id q => (move_task s id q).2
  | Op.createStaff p => (create_staff s p).2
  | Op.updateStaff id p => (update_staff s id p).2
  | Op.deleteStaff id => (delete_staff s id).2
  | Op.getTask _ => s
  | Op.getStaff _ => s

/-- Run a session. -/
def runOps (s : RepoState) : List Op → RepoState
  | [] => s
  | op :: rest => runOps (applyOp s op) rest

/-- The ids handed out by the `create_task` calls of a session, in call
order. -/
def createdTaskIds (s : RepoState) : List Op → List Int
  | [] => []
  | Op.createTask p :: rest =>
    (create_task s p).1.id :: createdTaskIds (applyOp s (Op.createTask p)) rest
  | op :: rest => createdTaskIds (applyOp s op) rest

/-- The ids handed out by the `create_staff` calls of a session, in call
order. -/
def createdStaffIds (s : RepoState) : List Op → List Int
  | [] => []
  | Op.createStaff p :: rest =>
    (create_staff s p).1.id :: createdStaffIds (applyOp s (Op.createStaff p)) rest
  | op :: rest => createdStaffIds (applyOp s op) rest

/-- A concrete task record (as produced by the scenario in the spec's §8:
`create_task {title: "Draft review", owner_id: 1, quadrant: 2}`). -/
def sampleTask : TaskRecord :=
  { id := 1, title := some "Draft review", description := none,
    owner_id := some 1, created_by := none, due_date := none,
    status := some "not-started", department := none,
    priority := some "medium", quadrant := some 2 }

/-- A concrete staff record (`create_staff {name: "Sato"}`). -/
def sampleStaff : StaffRecord :=
  { id := 1, name := some "Sato", department := none, photo := none,
    photo_q1 := none, photo_q2 := none, photo_q3 := none, photo_q4 := none }

/-- A concrete store holding one task and one staff member, with both data
files in sync. -/
def sampleState : RepoState :=
  { tasks := [sampleTask], staff := [sampleStaff],
    nextTaskId := 2, nextStaffId := 2,
    tasksFile := Json.arr [encodeTask sampleTask],
    staffFile := Json.arr [encodeStaff sampleStaff] }

/-- A concrete create payload for witnesses. -/
def sampleTaskCreate : TaskCreate :=
  { title := "Plan sprint", description := none, owner_id := 1,
    created_by := none, due_date := some "2026-01-15",
    status := "not-started", department := none, priority := "medium",
    quadrant := 3 }

/-- A concrete staff create payload for witnesses. -/
def sampleStaffCreate : StaffCreate :=
  { name := "Suzuki", department := none, photo := some (some "a.png"),
    photo_q1 := none, photo_q2 := none, photo_q3 := none, photo_q4 := none }

/-! ### Helper lemmas -/

theorem updateFirst_eq_none {p : α → Bool} {f : α → α} :
    ∀ {l : List α}, (∀ x ∈ l, p x = false) → updateFirst p f l = none := by
  intro l
  induction l with
  | nil => intro _; rfl
  | cons x xs ih =>
    intro h
    simp only [updateFirst]
    rw [h x (List.mem_cons_self x xs)]
    simp [ih (fun y hy => h y (List.mem_cons_of_mem x hy))]

theorem removeFirst_eq_none {p : α → Bool} :
    ∀ {l : List α}, (∀ x ∈ l, p x = false) → removeFirst p l = none := by
  intro l
  induction l with
  | nil => intro _; rfl
  | cons x xs ih =>
    intro h
    simp only [removeFirst]
    rw [h x (List.mem_cons_self x xs)]
    simp [ih (fun y hy => h y (List.mem_cons_of_mem x hy))]

theorem updateFirst_eq_some {p : α → Bool} {f : α → α} :
    ∀ {l : List α} {l' : List α} {r : α},
      updateFirst p f l = some (l', r) →
      ∃ l₁ x l₂, l = l₁ ++ x :: l₂ ∧ (∀ y ∈ l₁, p y = false) ∧ p x = true ∧
        l' = l₁ ++ f x :: l₂ ∧ r = f x := by
  intro l
  induction l with
  | nil => intro l' r h; simp [updateFirst] at h
  | cons x xs ih =>
    intro l' r h
    by_cases hx : p x
    · refine ⟨[], x, xs, by simp, by simp, hx, ?_, ?_⟩ <;>
        · simp only [updateFirst, hx, if_pos] at h
          simp only [Option.some.injEq, Prod.mk.injEq] at h
          simp [h.1.symm, h.2.symm]
    · simp only [updateFirst, hx, if_neg, Bool.false_eq_true, not_false_iff,
        Option.map_eq_some'] at h
      obtain ⟨⟨ys, r'⟩, hys, heq⟩ := h
      obtain ⟨l₁, a, l₂, hl, hl₁, ha, hl', hr⟩ := ih hys
      refine ⟨x :: l₁, a, l₂, by simp [hl], ?_, ha, ?_, ?_⟩
      · intro y hy
        rcases List.mem_cons.mp hy with rfl | hy
        · exact Bool.eq_false_iff.mpr hx
        · exact hl₁ y hy
      · cases heq; simp [hl']
      · cases heq; simp [hr]

theorem removeFirst_eq_some {p : α → Bool} :
    ∀ {l : List α} {l' : List α},
      removeFirst p l = some l' →
      ∃ l₁ x l₂, l = l₁ ++ x :: l₂ ∧ (∀ y ∈ l₁, p y = false) ∧ p x = true ∧
        l' = l₁ ++ l₂ := by
  intro l
  induction l with
  | nil => intro l' h; simp [removeFirst] at h
  | cons x xs ih =>
    intro l' h
    by_cases hx : p x
    · simp only [removeFirst, hx, if_pos, Option.some.injEq] at h
      exact ⟨[], x, xs, by simp, by simp, hx, by simp [h.symm]⟩
    · simp only [removeFirst, hx, if_neg, Bool.false_eq_true, not_false_iff,
        Option.map_eq_some'] at h
      obtain ⟨ys, hys, heq⟩ := h
      obtain ⟨l₁, a, l₂, hl, hl₁, ha, hl'⟩ := ih hys
      refine ⟨x :: l₁, a, l₂, by simp [hl], ?_, ha, by simp [heq.symm, hl']⟩
      intro y hy
      rcases List.mem_cons.mp hy with rfl | hy
      · exact Bool.eq_false_iff.mpr hx
      · exact hl₁ y hy

theorem updateFirst_of_mem {p : α → Bool} {f : α → α} :
    ∀ {l : List α}, (∃ x ∈ l, p x = true) →
      ∃ l' r, updateFirst p f l = some (l', r) := by
  intro l
  induction l with
  | nil => rintro ⟨x, hx, _⟩; simp at hx
  | cons x xs ih =>
    rintro ⟨a, ha, hpa⟩
    by_cases hx : p x
    · exact ⟨f x :: xs, f x, by simp [updateFirst, hx]⟩
    · rcases List.mem_cons.mp ha with rfl | ha
      · exact absurd hpa (by simp [hx])
      · obtain ⟨l', r, hl⟩ := ih ⟨a, ha, hpa⟩
        exact ⟨x :: l', r, by simp [updateFirst, hx, hl]⟩

theorem decOptStr_encOptStr (v : Option String) : decOptStr (encOptStr v) = some v := by
  cases v <;> rfl

theorem decOptInt_encOptInt (v : Option Int) : decOptInt (encOptInt v) = some v := by
  cases v <;> rfl

theorem decodeTask_encodeTask (t : TaskRecord) : decodeTask (encodeTask t) = some t := by
  simp [encodeTask, decodeTask, reqField, lookupField, decOptStr_encOptStr,
    decOptInt_encOptInt]

theorem decodeTaskList_encode (ts : List TaskRecord) :
    decodeTaskList (ts.map encodeTask) = some ts := by
  induction ts with
  | nil => rfl
  | cons t ts ih => simp [decodeTaskList, decodeTask_encodeTask, ih]

theorem decodeStaff_encodeStaff (r : StaffRecord) : decodeStaff (encodeStaff r) = some r := by
  obtain ⟨id, name, dep, ph, p1, p2, p3, p4⟩ := r
  cases dep <;> cases ph <;> cases p1 <;> cases p2 <;> cases p3 <;> cases p4 <;>
    simp [encodeStaff, decodeStaff, staffField, reqField, optField, lookupField,
      decOptStr_encOptStr]

theorem decodeStaffList_encode (rs : List StaffRecord) :
    decodeStaffList (rs.map encodeStaff) = some rs := by
  induction rs with
  | nil => rfl
  | cons r rs ih => simp [decodeStaffList, decodeStaff_encodeStaff, ih]

theorem decodeTasks_persist (ts : List TaskRecord) :
    decodeTasks (Json.arr (ts.map encodeTask)) = some ts :=
  decodeTaskList_encode ts

theorem decodeStaffs_persist (rs : List StaffRecord) :
    decodeStaffs (Json.arr (rs.map encodeStaff)) = some rs :=
  decodeStaffList_encode rs

theorem nextTaskId_applyOp (s : RepoState) (op : Op) :
    s.nextTaskId ≤ (applyOp s op).nextTaskId := by
  cases op with
  | createTask p => simp [applyOp, create_task, persistTasks]
  | updateTask id p =>
    simp only [applyOp, update_task]
    cases updateFirst (fun t => t.id == id) (fun t => applyTaskUpdate t p) s.tasks <;>
      simp [persistTasks]
  | deleteTask id =>
    simp only [applyOp, delete_task]
    cases removeFirst (fun t => t.id == id) s.tasks <;> simp [persistTasks]
  | moveTask id q =>
    simp only [applyOp, move_task]
    cases updateFirst (fun t => t.id == id) (fun t => { t with quadrant := some q }) s.tasks <;>
      simp [persistTasks]
  | createStaff p => simp [applyOp, create_staff, persistStaff]
  | updateStaff id p =>
    simp only [applyOp, update_staff]
    cases updateFirst (fun r => r.id == id) (fun r => applyStaffUpdate r p) s.staff <;>
      simp [persistStaff]
  | deleteStaff id =>
    simp only [applyOp, delete_staff]
    cases removeFirst (fun r => r.id == id) s.staff <;> simp [persistStaff]
  | getTask id => simp [applyOp]
  | getStaff id => simp [applyOp]

theorem nextStaffId_applyOp (s : RepoState) (op : Op) :
    s.nextStaffId ≤ (applyOp s op).nextStaffId := by
  cases op with
  | createTask p => simp [applyOp, create_task, persistTasks]
  | updateTask id p =>
    simp only [applyOp, update_task]
    cases updateFirst (fun t => t.id == id) (fun t => applyTaskUpdate t p) s.tasks <;>
      simp [persistTasks]
  | deleteTask id =>
    simp only [applyOp, delete_task]
    cases removeFirst (fun t => t.id == id) s.tasks <;> simp [persistTasks]
  | moveTask id q =>
    simp only [applyOp, move_task]
    cases updateFirst (fun t => t.id == id) (fun t => { t with quadrant := some q }) s.tasks <;>
      simp [persistTasks]
  | createStaff p => simp [applyOp, create_staff, persistStaff]
  | updateStaff id p =>
    simp only [applyOp, update_staff]
    cases updateFirst (fun r => r.id == id) (fun r => applyStaffUpdate r p) s.staff <;>
      simp [persistStaff]
  | deleteStaff id =>
    simp only [applyOp, delete_staff]
    cases removeFirst (fun r => r.id == id) s.staff <;> simp [persistStaff]
  | getTask id => simp [applyOp]
  | getStaff id => simp [applyOp]

theorem createdTaskIds_lb :
    ∀ (ops : List Op) (s : RepoState) (i : Int),
      i ∈ createdTaskIds s ops → s.nextTaskId ≤ i := by
  intro ops
  induction ops with
  | nil => intro s i h; simp [createdTaskIds] at h
  | cons op rest ih =>
    intro s i h
    cases op with
    | createTask p =>
      simp only [createdTaskIds, List.mem_cons] at h
      rcases h with rfl | h
      · exact le_refl _
      · have := ih _ _ h
        have hstep : (applyOp s (Op.createTask p)).nextTaskId = s.nextTaskId + 1 := rfl
        omega
    | updateTask id p =>
      exact le_trans (nextTaskId_applyOp s (Op.updateTask id p))
        (ih _ _ (by simpa [createdTaskIds] using h))
    | deleteTask id =>
      exact le_trans (nextTaskId_applyOp s (Op.deleteTask id))
        (ih _ _ (by simpa [createdTaskIds] using h))
    | moveTask id q =>
      exact le_trans (nextTaskId_applyOp s (Op.moveTask id q))
        (ih _ _ (by simpa [createdTaskIds] using h))
    | createStaff p =>
      exact le_trans (nextTaskId_applyOp s (Op.createStaff p))
        (ih _ _ (by simpa [createdTaskIds] using h))
    | updateStaff id p =>
      exact le_trans (nextTaskId_applyOp s (Op.updateStaff id p))
        (ih _ _ (by simpa [createdTaskIds] using h))
    | deleteStaff id =>
      exact le_trans (nextTaskId_applyOp s (Op.deleteStaff id))
        (ih _ _ (by simpa [createdTaskIds] using h))
    | getTask id =>
      exact le_trans (nextTaskId_applyOp s (Op.getTask id))
        (ih _ _ (by simpa [createdTaskIds] using h))
    | getStaff id =>
      exact le_trans (nextTaskId_applyOp s (Op.getStaff id))
        (ih _ _ (by simpa [createdTaskIds] using h))

theorem createdStaffIds_lb :
    ∀ (ops : List Op) (s : RepoState) (i : Int),
      i ∈ createdStaffIds s ops → s.nextStaffId ≤ i := by
  intro ops
  induction ops with
  | nil => intro s i h; simp [createdStaffIds] at h
  | cons op rest ih =>
    intro s i h
    cases op with
    | createStaff p =>
      simp only [createdStaffIds, List.mem_cons] at h
      rcases h with rfl | h
      · exact le_refl _
      · have := ih _ _ h
        have hstep : (applyOp s (Op.createStaff p)).nextStaffId = s.nextStaffId + 1 := rfl
        omega
    | createTask p =>
      exact le_trans (nextStaffId_applyOp s (Op.createTask p))
        (ih _ _ (by simpa [createdStaffIds] using h))
    | updateTask id p =>
      exact le_trans (nextStaffId_applyOp s (Op.updateTask id p))
        (ih _ _ (by simpa [createdStaffIds] using h))
    | deleteTask id =>
      exact le_trans (nextStaffId_applyOp s (Op.deleteTask id))
        (ih _ _ (by simpa [createdStaffIds] using h))
    | moveTask id q =>
      exact le_trans (nextStaffId_applyOp s (Op.moveTask id q))
        (ih _ _ (by simpa [createdStaffIds] using h))
    | updateStaff id p =>
      exact le_trans (nextStaffId_applyOp s (Op.updateStaff id p))
        (ih _ _ (by simpa [createdStaffIds] using h))
    | deleteStaff id =>
      exact le_trans (nextStaffId_applyOp s (Op.deleteStaff id))
        (ih _ _ (by simpa [createdStaffIds] using h))
    | getTask id =>
      exact le_trans (nextStaffId_applyOp s (Op.getTask id))
        (ih _ _ (by simpa [createdStaffIds] using h))
    | getStaff id =>
      exact le_trans (nextStaffId_applyOp s (Op.getStaff id))
        (ih _ _ (by simpa [createdStaffIds] using h))

theorem createdTaskIds_sorted :
    ∀ (ops : List Op) (s : RepoState),
      List.Sorted (· < ·) (createdTaskIds s ops) := by
  intro ops
  induction ops with
  | nil => intro s; simp [createdTaskIds]
  | cons op rest ih =>
    intro s
    cases op with
    | createTask p =>
      simp only [createdTaskIds]
      refine List.sorted_cons.mpr ⟨?_, ih _⟩
      intro b hb
      have := createdTaskIds_lb rest (applyOp s (Op.createTask p)) b hb
      have hstep : (applyOp s (Op.createTask p)).nextTaskId = s.nextTaskId + 1 := rfl
      have hid : (create_task s p).1.id = s.nextTaskId := rfl
      omega
    | updateTask id p => simpa [createdTaskIds] using ih (applyOp s (Op.updateTask id p))
    | deleteTask id => simpa [createdTaskIds] using ih (applyOp s (Op.deleteTask id))
    | moveTask id q => simpa [createdTaskIds] using ih (applyOp s (Op.moveTask id q))
    | createStaff p => simpa [createdTaskIds] using ih (applyOp s (Op.createStaff p))
    | updateStaff id p => simpa [createdTaskIds] using ih (applyOp s (Op.updateStaff id p))
    | deleteStaff id => simpa [createdTaskIds] using ih (applyOp s (Op.deleteStaff id))
    | getTask id => simpa [createdTaskIds] using ih (applyOp s (Op.getTask id))
    | getStaff id => simpa [createdTaskIds] using ih (applyOp s (Op.getStaff id))

theorem createdStaffIds_sorted :
    ∀ (ops : List Op) (s : RepoState),
      List.Sorted (· < ·) (createdStaffIds s ops) := by
  intro ops
  induction ops with
  | nil => intro s; simp [createdStaffIds]
  | cons op rest ih =>
    intro s
    cases op with
    | createStaff p =>
      simp only [createdStaffIds]
      refine List.sorted_cons.mpr ⟨?_, ih _⟩
      intro b hb
      have := createdStaffIds_lb rest (applyOp s (Op.createStaff p)) b hb
      have hstep : (applyOp s (Op.createStaff p)).nextStaffId = s.nextStaffId + 1 := rfl
      have hid : (create_staff s p).1.id = s.nextStaffId := rfl
      omega
    | createTask p => simpa [createdStaffIds] using ih (applyOp s (Op.createTask p))
    | updateTask id p => simpa [createdStaffIds] using ih (applyOp s (Op.updateTask id p))
    | deleteTask id => simpa [createdStaffIds] using ih (applyOp s (Op.deleteTask id))
    | moveTask id q => simpa [createdStaffIds] using ih (applyOp s (Op.moveTask id q))
    | updateStaff id p => simpa [createdStaffIds] using ih (applyOp s (Op.updateStaff id p))
    | deleteStaff id => simpa [createdStaffIds] using ih (applyOp s (Op.deleteStaff id))
    | getTask id => simpa [createdStaffIds] using ih (applyOp s (Op.getTask id))
    | getStaff id => simpa [createdStaffIds] using ih (applyOp s (Op.getStaff id))

theorem le_listMax : ∀ {ids : List Int} {x : Int}, x ∈ ids → x ≤ listMax ids := by
  intro ids
  induction ids with
  | nil => intro x h; simp at h
  | cons a tl ih =>
    intro x h
    cases tl with
    | nil => simp at h; simp [listMax, h]
    | cons b tl' =>
      rcases List.mem_cons.mp h with rfl | h
      · simp [listMax]
      · have := ih h
        simp only [listMax]
        omega

theorem lt_calculateNextId {ids : List Int} {x : Int} (h : x ∈ ids) :
    x < calculateNextId ids := by
  cases ids with
  | nil => simp at h
  | cons a tl =>
    have := le_listMax h
    simp only [calculateNextId]
    omega

theorem applyTaskUpdate_empty (t : TaskRecord) : applyTaskUpdate t emptyTaskUpdate = t := rfl

theorem applyStaffUpdate_empty (r : StaffRecord) : applyStaffUpdate r emptyStaffUpdate = r := rfl

theorem staff_map_skip :
    ∀ (l : List StaffRecord) (a : Option StaffRecord) (i : Int),
      (∀ r ∈ l, r.id ≠ i) →
      l.foldl (fun acc r => if r.id == i then some r else acc) a = a := by
  intro l
  induction l with
  | nil => intro a i _; rfl
  | cons x xs ih =>
    intro a i h
    have hx : (x.id == i) = false :=
      beq_eq_false_iff_ne.mpr (h x (List.mem_cons_self x xs))
    simp only [List.foldl_cons, hx, Bool.false_eq_true, if_false]
    exact ih a i (fun r hr => h r (List.mem_cons_of_mem x hr))

theorem staff_map_eq_find? :
    ∀ (l : List StaffRecord), (l.map (·.id)).Nodup →
      ∀ i, staff_map l i = l.find? (fun r => r.id == i) := by
  intro l
  induction l with
  | nil => intro _ i; rfl
  | cons x xs ih =>
    intro h i
    have hx : x.id ∉ xs.map (·.id) := (List.nodup_cons.mp (by simpa using h)).1
    have hxs : (xs.map (·.id)).Nodup := (List.nodup_cons.mp (by simpa using h)).2
    by_cases hxi : x.id = i
    · have hb : (x.id == i) = true := beq_iff_eq.mpr hxi
      have hnone : ∀ r ∈ xs, r.id ≠ i := by
        intro r hr hri
        exact hx (by subst hxi; rw [← hri]; exact List.mem_map_of_mem (·.id) hr)
      simp only [staff_map, List.foldl_cons, hb, if_true, List.find?_cons, hb]
      exact staff_map_skip xs (some x) i hnone
    · have hb : (x.id == i) = false := beq_eq_false_iff_ne.mpr hxi
      simp only [staff_map, List.foldl_cons, hb, Bool.false_eq_true, if_false,
        List.find?_cons, hb]
      exact ih hxs i

theorem staff_map_eq_none :
    ∀ (l : List StaffRecord) (i : Int), (∀ r ∈ l, r.id ≠ i) →
      staff_map l i = none := fun l i h => staff_map_skip l none i h

theorem char_list_not_lt_nil (l : List Char) : ¬ l < ([] : List Char) := by
  intro h
  cases h

theorem empty_string_le (s : String) : "" ≤ s := by
  by_contra h
  have hlt : s < "" := lt_of_not_ge h
  have := String.lt_iff_toList_lt.mp hlt
  rw [String.toList_empty] at this
  exact char_list_not_lt_nil _ this

theorem empty_string_lt {s : String} (h : s ≠ "") : "" < s := by
  rcases lt_or_eq_of_le (empty_string_le s) with hlt | heq
  · exact hlt
  · exact absurd heq.symm h

/-! ### Claim theorems -/

/-- C2: every point operation called with an id absent from its collection —
`get_task`, `get_staff`, `update_task`, `update_staff`, `delete_task`,
`delete_staff`, `move_task` — fails with NotFound and leaves the whole store
(both collections, both id counters and both persisted files) exactly as it
was: no partial mutation and no persist happens. -/
theorem notFound_leaves_store_unchanged (s : RepoState) (tid sid : Int)
    (pt : TaskUpdate) (ps : StaffUpdate) (q : Int)
    (ht : tid ∉ s.tasks.map (·.id)) (hs : sid ∉ s.staff.map (·.id)) :
    get_task s tid = Except.error Err.notFound ∧
    update_task s tid pt = (Except.error Err.notFound, s) ∧
    delete_task s tid = (Except.error Err.notFound, s) ∧
    move_task s tid q = (Except.error Err.notFound, s) ∧
    get_staff s sid = Except.error Err.notFound ∧
    update_staff s sid ps = (Except.error Err.notFound, s) ∧
    delete_staff s sid = (Except.error Err.notFound, s) := by
  have hpt : ∀ t ∈ s.tasks, (t.id == tid) = false := by
    intro t htm
    exact beq_eq_false_iff_ne.mpr (fun he => ht (he ▸ List.mem_map_of_mem (·.id) htm))
  have hps : ∀ r ∈ s.staff, (r.id == sid) = false := by
    intro r hrm
    exact beq_eq_false_iff_ne.mpr (fun he => hs (he ▸ List.mem_map_of_mem (·.id) hrm))
  have hft : s.tasks.find? (fun t => t.id == tid) = none :=
    List.find?_eq_none.mpr (fun x hx => by simp [hpt x hx])
  have hfs : s.staff.find? (fun r => r.id == sid) = none :=
    List.find?_eq_none.mpr (fun x hx => by simp [hps x hx])
  refine ⟨?_, ?_, ?_, ?_, ?_, ?_, ?_⟩
  · simp [get_task, hft]
  · simp [update_task, updateFirst_eq_none hpt]
  · simp [delete_task, removeFirst_eq_none hpt]
  · simp [move_task, updateFirst_eq_none hpt]
  · simp [get_staff, hfs]
  · simp [update_staff, updateFirst_eq_none hps]
  · simp [delete_staff, removeFirst_eq_none hps]

theorem notFound_leaves_store_unchanged_witness :
    ((99 : Int) ∉ sampleState.tasks.map (·.id)) ∧
    get_task sampleState 99 = Except.error Err.notFound ∧
    update_task sampleState 99 emptyTaskUpdate = (Except.error Err.notFound, sampleState) ∧
    delete_task sampleState 99 = (Except.error Err.notFound, sampleState) ∧
    move_task sampleState 99 3 = (Except.error Err.notFound, sampleState) ∧
    get_staff sampleState 99 = Except.error Err.notFound ∧
    update_staff sampleState 99 emptyStaffUpdate = (Except.error Err.notFound, sampleState) ∧
    delete_staff sampleState 99 = (Except.error Err.notFound, sampleState) := by
  have h := notFound_leaves_store_unchanged sampleState 99 99 emptyTaskUpdate
    emptyStaffUpdate 3 (by decide) (by decide)
  exact ⟨by decide, h.1, h.2.1, h.2.2.1, h.2.2.2.1, h.2.2.2.2.1, h.2.2.2.2.2.1,
    h.2.2.2.2.2.2⟩

/-- C7: updating an existing task (resp. staff member) with the empty partial
payload is a no-op: both collections are left exactly as they were, and the
returned record is the stored one. -/
theorem empty_update_is_noop (s : RepoState) (tid sid : Int)
    (ht : tid ∈ s.tasks.map (·.id)) (hs : sid ∈ s.staff.map (·.id)) :
    (∃ r s', update_task s tid emptyTaskUpdate = (Except.ok r, s') ∧
      s'.tasks = s.tasks ∧ s'.staff = s.staff ∧ r ∈ s.tasks ∧ r.id = tid) ∧
    (∃ r s', update_staff s sid emptyStaffUpdate = (Except.ok r, s') ∧
      s'.staff = s.staff ∧ s'.tasks = s.tasks ∧ r ∈ s.staff ∧ r.id = sid) := by
  constructor
  · obtain ⟨x, hx, hxid⟩ := List.mem_map.mp ht
    obtain ⟨l', r, hu⟩ := updateFirst_of_mem (p := fun t => t.id == tid)
      (f := fun t => applyTaskUpdate t emptyTaskUpdate) ⟨x, hx, by simp [hxid]⟩
    obtain ⟨l₁, a, l₂, hdec, _, ha, hl', hr⟩ := updateFirst_eq_some hu
    rw [applyTaskUpdate_empty] at hl' hr
    refine ⟨r, persistTasks { s with tasks := l' }, by simp [update_task, hu],
      ?_, rfl, ?_, ?_⟩
    · simp [persistTasks, hl', hdec]
    · rw [hr, hdec]; exact List.mem_append_right _ (List.mem_cons_self a l₂)
    · rw [hr]; exact beq_iff_eq.mp ha
  · obtain ⟨x, hx, hxid⟩ := List.mem_map.mp hs
    obtain ⟨l', r, hu⟩ := updateFirst_of_mem (p := fun r => r.id == sid)
      (f := fun t => applyStaffUpdate t emptyStaffUpdate) ⟨x, hx, by simp [hxid]⟩
    obtain ⟨l₁, a, l₂, hdec, _, ha, hl', hr⟩ := updateFirst_eq_some hu
    rw [applyStaffUpdate_empty] at hl' hr
    refine ⟨r, persistStaff { s with staff := l' }, by simp [update_staff, hu],
      ?_, rfl, ?_, ?_⟩
    · simp [persistStaff, hl', hdec]
    · rw [hr, hdec]; exact List.mem_append_right _ (List.mem_cons_self a l₂)
    · rw [hr]; exact beq_iff_eq.mp ha

theorem empty_update_is_noop_witness :
    ((1 : Int) ∈ sampleState.tasks.map (·.id)) ∧
    ((∃ r s', update_task sampleState 1 emptyTaskUpdate = (Except.ok r, s') ∧
        s'.tasks = sampleState.tasks ∧ s'.staff = sampleState.staff ∧
        r ∈ sampleState.tasks ∧ r.id = 1) ∧
      (∃ r s', update_staff sampleState 1 emptyStaffUpdate = (Except.ok r, s') ∧
        s'.staff = sampleState.staff ∧ s'.tasks = sampleState.tasks ∧
        r ∈ sampleState.staff ∧ r.id = 1)) :=
  ⟨by decide, empty_update_is_noop sampleState 1 1 (by decide) (by decide)⟩

/-- C5: a successful `move_task(id, q)` rewrites exactly the `quadrant` field
of the first record whose id matches — the result is the old record with only
`quadrant` replaced by `q`, every other field kept — and leaves every other
task, the whole staff collection, both counters and the staff file
untouched. -/
theorem move_task_changes_only_quadrant (s : RepoState) (id q : Int)
    (h : id ∈ s.tasks.map (·.id)) :
    ∃ r s' l₁ t l₂,
      move_task s id q = (Except.ok r, s') ∧
      s.tasks = l₁ ++ t :: l₂ ∧ t.id = id ∧ (∀ y ∈ l₁, y.id ≠ id) ∧
      r = { t with quadrant := some q } ∧
      s'.tasks = l₁ ++ { t with quadrant := some q } :: l₂ ∧
      s'.staff = s.staff ∧ s'.nextTaskId = s.nextTaskId ∧
      s'.nextStaffId = s.nextStaffId ∧ s'.staffFile = s.staffFile := by
  obtain ⟨x, hx, hxid⟩ := List.mem_map.mp h
  obtain ⟨l', r, hu⟩ := updateFirst_of_mem (p := fun t => t.id == id)
    (f := fun t => { t with quadrant := some q }) ⟨x, hx, by simp [hxid]⟩
  obtain ⟨l₁, a, l₂, hdec, hl₁, ha, hl', hr⟩ := updateFirst_eq_some hu
  refine ⟨r, persistTasks { s with tasks := l' }, l₁, a, l₂,
    by simp [move_task, hu], hdec, beq_iff_eq.mp ha,
    ?_, hr, ?_, rfl, rfl, rfl, rfl⟩
  · intro y hy
    exact fun he => by simpa [he] using hl₁ y hy
  · simp [persistTasks, hl']

theorem move_task_changes_only_quadrant_witness :
    ((1 : Int) ∈ sampleState.tasks.map (·.id)) ∧
    (∃ r s' l₁ t l₂,
      move_task sampleState 1 4 = (Except.ok r, s') ∧
      sampleState.tasks = l₁ ++ t :: l₂ ∧ t.id = 1 ∧ (∀ y ∈ l₁, y.id ≠ 1) ∧
      r = { t with quadrant := some 4 } ∧
      s'.tasks = l₁ ++ { t with quadrant := some 4 } :: l₂ ∧
      s'.staff = sampleState.staff ∧ s'.nextTaskId = sampleState.nextTaskId ∧
      s'.nextStaffId = sampleState.nextStaffId ∧
      s'.staffFile = sampleState.staffFile) :=
  ⟨by decide, move_task_changes_only_quadrant sampleState 1 4 (by decide)⟩

/-- C4: `update_staff` on an existing record overwrites exactly the fields
present in the partial payload — a field explicitly set to `null`
(`some none`) is overwritten to `null` — and preserves every omitted field;
in particular a payload setting none of `photo`, `photo_q1`..`photo_q4`
leaves all five photo references exactly as they were. -/
theorem update_staff_merges_exactly_payload_fields (s : RepoState) (sid : Int)
    (p : StaffUpdate) (h : sid ∈ s.staff.map (·.id)) :
    ∃ r s' l₁ old l₂,
      update_staff s sid p = (Except.ok r, s') ∧
      s.staff = l₁ ++ old :: l₂ ∧ old.id = sid ∧
      s'.staff = l₁ ++ r :: l₂ ∧ s'.tasks = s.tasks ∧
      r.id = old.id ∧
      r.name = p.name.getD old.name ∧
      r.department = p.department.or old.department ∧
      r.photo = p.photo.or old.photo ∧
      r.photo_q1 = p.photo_q1.or old.photo_q1 ∧
      r.photo_q2 = p.photo_q2.or old.photo_q2 ∧
      r.photo_q3 = p.photo_q3.or old.photo_q3 ∧
      r.photo_q4 = p.photo_q4.or old.photo_q4 ∧
      (p.photo = some none → r.photo = some none) ∧
      (p.photo = none ∧ p.photo_q1 = none ∧ p.photo_q2 = none ∧
        p.photo_q3 = none ∧ p.photo_q4 = none →
        r.photo = old.photo ∧ r.photo_q1 = old.photo_q1 ∧
        r.photo_q2 = old.photo_q2 ∧ r.photo_q3 = old.photo_q3 ∧
        r.photo_q4 = old.photo_q4) := by
  obtain ⟨x, hx, hxid⟩ := List.mem_map.mp h
  obtain ⟨l', r, hu⟩ := updateFirst_of_mem (p := fun e => e.id == sid)
    (f := fun e => applyStaffUpdate e p) ⟨x, hx, by simp [hxid]⟩
  obtain ⟨l₁, a, l₂, hdec, _, ha, hl', hr⟩ := updateFirst_eq_some hu
  subst hr hl'
  refine ⟨applyStaffUpdate a p, persistStaff { s with staff := l₁ ++ applyStaffUpdate a p :: l₂ },
    l₁, a, l₂, by simp [update_staff, hu], hdec, beq_iff_eq.mp ha,
    rfl, rfl, rfl, rfl, rfl, rfl, rfl, rfl, rfl, rfl, ?_, ?_⟩
  · intro hp; simp [applyStaffUpdate, hp]
  · rintro ⟨h0, h1, h2, h3, h4⟩
    simp [applyStaffUpdate, h0, h1, h2, h3, h4]

theorem update_staff_merges_exactly_payload_fields_witness :
    ((1 : Int) ∈ sampleState.staff.map (·.id)) ∧
    (∃ r s' l₁ old l₂,
      update_staff sampleState 1
          { emptyStaffUpdate with name := some (some "Kato"), photo := some none }
        = (Except.ok r, s') ∧
      sampleState.staff = l₁ ++ old :: l₂ ∧ old.id = 1 ∧
      s'.staff = l₁ ++ r :: l₂ ∧ s'.tasks = sampleState.tasks ∧
      r.id = old.id ∧
      r.name = (some (some "Kato") : Option (Option String)).getD old.name ∧
      r.department = (none : Option (Option String)).or old.department ∧
      r.photo = (some none : Option (Option String)).or old.photo ∧
      r.photo_q1 = (none : Option (Option String)).or old.photo_q1 ∧
      r.photo_q2 = (none : Option (Option String)).or old.photo_q2 ∧
      r.photo_q3 = (none : Option (Option String)).or old.photo_q3 ∧
      r.photo_q4 = (none : Option (Option String)).or old.photo_q4 ∧
      ((some none : Option (Option String)) = some none → r.photo = some none) ∧
      ((some none : Option (Option String)) = none ∧
        (none : Option (Option String)) = none ∧
        (none : Option (Option String)) = none ∧
        (none : Option (Option String)) = none ∧
        (none : Option (Option String)) = none →
        r.photo = old.photo ∧ r.photo_q1 = old.photo_q1 ∧
        r.photo_q2 = old.photo_q2 ∧ r.photo_q3 = old.photo_q3 ∧
        r.photo_q4 = old.photo_q4)) :=
  ⟨by decide, update_staff_merges_exactly_payload_fields sampleState 1
    { emptyStaffUpdate with name := some (some "Kato"), photo := some none }
    (by decide)⟩

/-- C10: every operation preserves the stored order of the records it does
not remove: the create operations append at the end, the update/move
operations rewrite the first id-match in place, and the delete operations
drop exactly the first id-match, keeping the relative order of all other
records. -/
theorem operations_preserve_record_order :
    (∀ (s : RepoState) (p : TaskCreate),
      (create_task s p).2.tasks = s.tasks ++ [(create_task s p).1]) ∧
    (∀ (s : RepoState) (p : StaffCreate),
      (create_staff s p).2.staff = s.staff ++ [(create_staff s p).1]) ∧
    (∀ (s : RepoState) (id : Int) (p : TaskUpdate) (r : TaskRecord) (s' : RepoState),
      update_task s id p = (Except.ok r, s') →
      ∃ l₁ t l₂, s.tasks = l₁ ++ t :: l₂ ∧ t.id = id ∧ (∀ y ∈ l₁, y.id ≠ id) ∧
        s'.tasks = l₁ ++ r :: l₂ ∧ r = applyTaskUpdate t p) ∧
    (∀ (s : RepoState) (id : Int) (p : StaffUpdate) (r : StaffRecord) (s' : RepoState),
      update_staff s id p = (Except.ok r, s') →
      ∃ l₁ e l₂, s.staff = l₁ ++ e :: l₂ ∧ e.id = id ∧ (∀ y ∈ l₁, y.id ≠ id) ∧
        s'.staff = l₁ ++ r :: l₂ ∧ r = applyStaffUpdate e p) ∧
    (∀ (s : RepoState) (id q : Int) (r : TaskRecord) (s' : RepoState),
      move_task s id q = (Except.ok r, s') →
      ∃ l₁ t l₂, s.tasks = l₁ ++ t :: l₂ ∧ t.id = id ∧ (∀ y ∈ l₁, y.id ≠ id) ∧
        s'.tasks = l₁ ++ r :: l₂) ∧
    (∀ (s : RepoState) (id : Int) (u : Unit) (s' : RepoState),
      delete_task s id = (Except.ok u, s') →
      ∃ l₁ t l₂, s.tasks = l₁ ++ t :: l₂ ∧ t.id = id ∧ (∀ y ∈ l₁, y.id ≠ id) ∧
        s'.tasks = l₁ ++ l₂) ∧
    (∀ (s : RepoState) (id : Int) (u : Unit) (s' : RepoState),
      delete_staff s id = (Except.ok u, s') →
      ∃ l₁ e l₂, s.staff = l₁ ++ e :: l₂ ∧ e.id = id ∧ (∀ y ∈ l₁, y.id ≠ id) ∧
        s'.staff = l₁ ++ l₂) := by
  refine ⟨fun s p => rfl, fun s p => rfl, ?_, ?_, ?_, ?_, ?_⟩
  · intro s id p r s' h
    rcases hu : updateFirst (fun t => t.id == id) (fun t => applyTaskUpdate t p) s.tasks with
      _ | ⟨ts, r'⟩ <;> rw [update_task, hu] at h
    · simp at h
    · obtain ⟨l₁, a, l₂, hdec, hl₁, ha, hl', hr⟩ := updateFirst_eq_some hu
      cases h
      refine ⟨l₁, a, l₂, hdec, beq_iff_eq.mp ha, ?_, ?_, hr⟩
      · intro y hy he
        simpa [he] using hl₁ y hy
      · simp [persistTasks, hl', hr]
  · intro s id p r s' h
    rcases hu : updateFirst (fun e => e.id == id) (fun e => applyStaffUpdate e p) s.staff with
      _ | ⟨rs, r'⟩ <;> rw [update_staff, hu] at h
    · simp at h
    · obtain ⟨l₁, a, l₂, hdec, hl₁, ha, hl', hr⟩ := updateFirst_eq_some hu
      cases h
      refine ⟨l₁, a, l₂, hdec, beq_iff_eq.mp ha, ?_, ?_, hr⟩
      · intro y hy he
        simpa [he] using hl₁ y hy
      · simp [persistStaff, hl', hr]
  · intro s id q r s' h
    rcases hu : updateFirst (fun t => t.id == id) (fun t => { t with quadrant := some q }) s.tasks with
      _ | ⟨ts, r'⟩ <;> rw [move_task, hu] at h
    · simp at h
    · obtain ⟨l₁, a, l₂, hdec, hl₁, ha, hl', hr⟩ := updateFirst_eq_some hu
      cases h
      refine ⟨l₁, a, l₂, hdec, beq_iff_eq.mp ha, ?_, ?_⟩
      · intro y hy he
        simpa [he] using hl₁ y hy
      · simp [persistTasks, hl', hr]
  · intro s id u s' h
    rcases hu : removeFirst (fun t => t.id == id) s.tasks with _ | ts <;>
      rw [delete_task, hu] at h
    · simp at h
    · obtain ⟨l₁, a, l₂, hdec, hl₁, ha, hl'⟩ := removeFirst_eq_some hu
      cases h
      refine ⟨l₁, a, l₂, hdec, beq_iff_eq.mp ha, ?_, ?_⟩
      · intro y hy he
        simpa [he] using hl₁ y hy
      · simp [persistTasks, hl']
  · intro s id u s' h
    rcases hu : removeFirst (fun e => e.id == id) s.staff with _ | rs <;>
      rw [delete_staff, hu] at h
    · simp at h
    · obtain ⟨l₁, a, l₂, hdec, hl₁, ha, hl'⟩ := removeFirst_eq_some hu
      cases h
      refine ⟨l₁, a, l₂, hdec, beq_iff_eq.mp ha, ?_, ?_⟩
      · intro y hy he
        simpa [he] using hl₁ y hy
      · simp [persistStaff, hl']

theorem operations_preserve_record_order_witness :
    ((create_task sampleState sampleTaskCreate).2.tasks
      = sampleState.tasks ++ [(create_task sampleState sampleTaskCreate).1]) ∧
    (∃ l₁ t l₂, sampleState.tasks = l₁ ++ t :: l₂ ∧ t.id = 1 ∧
      (∀ y ∈ l₁, y.id ≠ 1) ∧
      ({ tasks := [], staff := [sampleStaff], nextTaskId := 2, nextStaffId := 2,
         tasksFile := Json.arr [], staffFile := Json.arr [encodeStaff sampleStaff] }
           : RepoState).tasks = l₁ ++ l₂) :=
  ⟨operations_preserve_record_order.1 sampleState sampleTaskCreate,
   operations_preserve_record_order.2.2.2.2.2.1 sampleState 1 ()
     { tasks := [], staff := [sampleStaff], nextTaskId := 2, nextStaffId := 2,
       tasksFile := Json.arr [], staffFile := Json.arr [encodeStaff sampleStaff] }
     rfl⟩

/-- C6: after every successful mutating operation, deserializing the JSON
tree just written to the mutated collection's file yields exactly the
in-memory collection — persist followed by load is an identity on the store
state. -/
theorem persist_then_load_roundtrip :
    (∀ (s : RepoState) (p : TaskCreate),
      decodeTasks (create_task s p).2.tasksFile = some (create_task s p).2.tasks) ∧
    (∀ (s : RepoState) (id : Int) (p : TaskUpdate) (r : TaskRecord) (s' : RepoState),
      update_task s id p = (Except.ok r, s') →
      decodeTasks s'.tasksFile = some s'.tasks) ∧
    (∀ (s : RepoState) (id : Int) (u : Unit) (s' : RepoState),
      delete_task s id = (Except.ok u, s') →
      decodeTasks s'.tasksFile = some s'.tasks) ∧
    (∀ (s : RepoState) (id q : Int) (r : TaskRecord) (s' : RepoState),
      move_task s id q = (Except.ok r, s') →
      decodeTasks s'.tasksFile = some s'.tasks) ∧
    (∀ (s : RepoState) (p : StaffCreate),
      decodeStaffs (create_staff s p).2.staffFile = some (create_staff s p).2.staff) ∧
    (∀ (s : RepoState) (id : Int) (p : StaffUpdate) (r : StaffRecord) (s' : RepoState),
      update_staff s id p = (Except.ok r, s') →
      decodeStaffs s'.staffFile = some s'.staff) ∧
    (∀ (s : RepoState) (id : Int) (u : Unit) (s' : RepoState),
      delete_staff s id = (Except.ok u, s') →
      decodeStaffs s'.staffFile = some s'.staff) := by
  refine ⟨fun s p => decodeTasks_persist _, ?_, ?_, ?_,
    fun s p => decodeStaffs_persist _, ?_, ?_⟩
  · intro s id p r s' h
    rcases hu : updateFirst (fun t => t.id == id) (fun t => applyTaskUpdate t p) s.tasks with
      _ | ⟨ts, r'⟩ <;> rw [update_task, hu] at h
    · simp at h
    · cases h; exact decodeTasks_persist _
  · intro s id u s' h
    rcases hu : removeFirst (fun t => t.id == id) s.tasks with _ | ts <;>
      rw [delete_task, hu] at h
    · simp at h
    · cases h; exact decodeTasks_persist _
  · intro s id q r s' h
    rcases hu : updateFirst (fun t => t.id == id) (fun t => { t with quadrant := some q }) s.tasks with
      _ | ⟨ts, r'⟩ <;> rw [move_task, hu] at h
    · simp at h
    · cases h; exact decodeTasks_persist _
  · intro s id p r s' h
    rcases hu : updateFirst (fun e => e.id == id) (fun e => applyStaffUpdate e p) s.staff with
      _ | ⟨rs, r'⟩ <;> rw [update_staff, hu] at h
    · simp at h
    · cases h; exact decodeStaffs_persist _
  · intro s id u s' h
    rcases hu : removeFirst (fun e => e.id == id) s.staff with _ | rs <;>
      rw [delete_staff, hu] at h
    · simp at h
    · cases h; exact decodeStaffs_persist _

theorem persist_then_load_roundtrip_witness :
    (decodeTasks (create_task sampleState sampleTaskCreate).2.tasksFile
      = some (create_task sampleState sampleTaskCreate).2.tasks) ∧
    (decodeStaffs
        ({ tasks := [sampleTask], staff := [], nextTaskId := 2, nextStaffId := 2,
           tasksFile := Json.arr [encodeTask sampleTask], staffFile := Json.arr [] }
             : RepoState).staffFile
      = some ({ tasks := [sampleTask], staff := [], nextTaskId := 2, nextStaffId := 2,
                tasksFile := Json.arr [encodeTask sampleTask], staffFile := Json.arr [] }
                  : RepoState).staff) :=
  ⟨persist_then_load_roundtrip.1 sampleState sampleTaskCreate,
   persist_then_load_roundtrip.2.2.2.2.2.2 sampleState 1 ()
     { tasks := [sampleTask], staff := [], nextTaskId := 2, nextStaffId := 2,
       tasksFile := Json.arr [encodeTask sampleTask], staffFile := Json.arr [] }
     rfl⟩

/-- C3: for every session started by `DataRepository.__init__` (counters
seeded from `max(existing id) + 1`, or `1` on an empty collection) and every
interleaving of operations including deletes, the ids handed out by
`create_task` (resp. `create_staff`) are strictly increasing — hence unique —
and strictly greater than every id loaded at startup; moreover no operation
ever decreases either counter. -/
theorem created_ids_strictly_increasing (tasks0 : List TaskRecord)
    (staff0 : List StaffRecord) (tf sf : Json) (ops : List Op) :
    List.Sorted (· < ·) (createdTaskIds (initState tasks0 staff0 tf sf) ops) ∧
    List.Sorted (· < ·) (createdStaffIds (initState tasks0 staff0 tf sf) ops) ∧
    (∀ i ∈ createdTaskIds (initState tasks0 staff0 tf sf) ops,
      ∀ t ∈ tasks0, t.id < i) ∧
    (∀ i ∈ createdStaffIds (initState tasks0 staff0 tf sf) ops,
      ∀ r ∈ staff0, r.id < i) ∧
    (tasks0 = [] → (initState tasks0 staff0 tf sf).nextTaskId = 1) ∧
    (tasks0 ≠ [] →
      (initState tasks0 staff0 tf sf).nextTaskId = listMax (tasks0.map (·.id)) + 1) ∧
    (staff0 = [] → (initState tasks0 staff0 tf sf).nextStaffId = 1) ∧
    (staff0 ≠ [] →
      (initState tasks0 staff0 tf sf).nextStaffId = listMax (staff0.map (·.id)) + 1) ∧
    (∀ (s : RepoState) (op : Op), s.nextTaskId ≤ (applyOp s op).nextTaskId ∧
      s.nextStaffId ≤ (applyOp s op).nextStaffId) := by
  refine ⟨createdTaskIds_sorted ops _, createdStaffIds_sorted ops _, ?_, ?_, ?_, ?_, ?_, ?_,
    fun s op => ⟨nextTaskId_applyOp s op, nextStaffId_applyOp s op⟩⟩
  · intro i hi t ht
    have h1 := createdTaskIds_lb ops (initState tasks0 staff0 tf sf) i hi
    have h2 : t.id < calculateNextId (tasks0.map (·.id)) :=
      lt_calculateNextId (List.mem_map_of_mem (·.id) ht)
    have h3 : (initState tasks0 staff0 tf sf).nextTaskId
        = calculateNextId (tasks0.map (·.id)) := rfl
    omega
  · intro i hi r hr
    have h1 := createdStaffIds_lb ops (initState tasks0 staff0 tf sf) i hi
    have h2 : r.id < calculateNextId (staff0.map (·.id)) :=
      lt_calculateNextId (List.mem_map_of_mem (·.id) hr)
    have h3 : (initState tasks0 staff0 tf sf).nextStaffId
        = calculateNextId (staff0.map (·.id)) := rfl
    omega
  · intro h; subst h; rfl
  · intro h
    cases tasks0 with
    | nil => exact absurd rfl h
    | cons a tl => rfl
  · intro h; subst h; rfl
  · intro h
    cases staff0 with
    | nil => exact absurd rfl h
    | cons a tl => rfl

theorem created_ids_strictly_increasing_witness :
    List.Sorted (· < ·)
      (createdTaskIds (initState [sampleTask] [sampleStaff] Json.null Json.null)
        [Op.createTask sampleTaskCreate, Op.deleteTask 2,
         Op.createTask sampleTaskCreate, Op.createStaff sampleStaffCreate]) ∧
    (initState ([] : List TaskRecord) [sampleStaff] Json.null Json.null).nextTaskId = 1 ∧
    (initState [sampleTask] [sampleStaff] Json.null Json.null).nextTaskId
      = listMax ([sampleTask].map (·.id)) + 1 :=
  ⟨(created_ids_strictly_increasing [sampleTask] [sampleStaff] Json.null Json.null
      [Op.createTask sampleTaskCreate, Op.deleteTask 2,
       Op.createTask sampleTaskCreate, Op.createStaff sampleStaffCreate]).1,
   (created_ids_strictly_increasing [] [sampleStaff] Json.null Json.null []).2.2.2.2.1 rfl,
   (created_ids_strictly_increasing [sampleTask] [sampleStaff] Json.null Json.null
      []).2.2.2.2.2.1 (by simp)⟩

/-- C8: `serialize_task` copies every field of the task unchanged and adds an
`owner` equal to the staff record whose id matches `owner_id` (`none` when no
such staff exists — `staff_map` is the first-match lookup when staff ids are
unique); deleting a staff record referenced by an existing task leaves the
task collection untouched, and a subsequent projection of such a task yields
`owner = none`. -/
theorem serialize_task_projection :
    (∀ (t : TaskRecord) (m : Int → Option StaffRecord),
      (serialize_task t m).id = t.id ∧
      (serialize_task t m).title = t.title ∧
      (serialize_task t m).description = t.description ∧
      (serialize_task t m).owner_id = t.owner_id ∧
      (serialize_task t m).created_by = t.created_by ∧
      (serialize_task t m).due_date = t.due_date ∧
      (serialize_task t m).status = t.status ∧
      (serialize_task t m).department = t.department ∧
      (serialize_task t m).priority = t.priority ∧
      (serialize_task t m).quadrant = t.quadrant ∧
      (serialize_task t m).owner = t.owner_id.bind m) ∧
    (∀ (staff : List StaffRecord), (staff.map (·.id)).Nodup →
      ∀ i, staff_map staff i = staff.find? (fun r => r.id == i)) ∧
    (∀ (s : RepoState) (sid : Int) (u : Unit) (s' : RepoState),
      delete_staff s sid = (Except.ok u, s') →
      s'.tasks = s.tasks ∧
      ((s.staff.map (·.id)).Nodup →
        ∀ t : TaskRecord, t.owner_id = some sid →
          (serialize_task t (staff_map s'.staff)).owner = none)) := by
  refine ⟨fun t m => ⟨rfl, rfl, rfl, rfl, rfl, rfl, rfl, rfl, rfl, rfl, rfl⟩,
    staff_map_eq_find?, ?_⟩
  intro s sid u s' h
  rcases hu : removeFirst (fun e => e.id == sid) s.staff with _ | rs <;>
    rw [delete_staff, hu] at h
  · simp at h
  · obtain ⟨l₁, x, l₂, hdec, hl₁, hx, hl'⟩ := removeFirst_eq_some hu
    cases h
    refine ⟨rfl, ?_⟩
    intro hnd t how
    have hxid : x.id = sid := beq_iff_eq.mp hx
    have hstaff' : (persistStaff { s with staff := rs }).staff = l₁ ++ l₂ := by
      simp [persistStaff, hl']
    have hnone : ∀ r ∈ l₁ ++ l₂, r.id ≠ sid := by
      rw [hdec] at hnd
      have hnd2 : (l₂.map (·.id)).Nodup ∧ sid ∉ l₂.map (·.id) := by
        rw [List.map_append, List.map_cons] at hnd
        have := (List.nodup_append.mp hnd).2.1
        rw [List.nodup_cons] at this
        exact ⟨this.2, hxid ▸ this.1⟩
      intro r hr
      rcases List.mem_append.mp hr with hr1 | hr2
      · exact fun he => by simpa [he] using hl₁ r hr1
      · exact fun he => hnd2.2 (he ▸ List.mem_map_of_mem (·.id) hr2)
    have : staff_map ((persistStaff { s with staff := rs }).staff) sid = none := by
      rw [hstaff']
      exact staff_map_eq_none _ _ hnone
    simp [serialize_task, how, this]

theorem serialize_task_projection_witness :
    ((serialize_task sampleTask (staff_map [sampleStaff])).owner
        = sampleTask.owner_id.bind (staff_map [sampleStaff])) ∧
    (staff_map [sampleStaff] 1 = [sampleStaff].find? (fun r => r.id == 1)) ∧
    ((serialize_task sampleTask
        (staff_map ({ tasks := [sampleTask], staff := [], nextTaskId := 2,
                      nextStaffId := 2,
                      tasksFile := Json.arr [encodeTask sampleTask],
                      staffFile := Json.arr [] } : RepoState).staff)).owner = none) :=
  ⟨(serialize_task_projection.1 sampleTask (staff_map [sampleStaff])).2.2.2.2.2.2.2.2.2.2,
   serialize_task_projection.2.1 [sampleStaff] (by decide) 1,
   (serialize_task_projection.2.2 sampleState 1 ()
      { tasks := [sampleTask], staff := [], nextTaskId := 2, nextStaffId := 2,
        tasksFile := Json.arr [encodeTask sampleTask], staffFile := Json.arr [] }
      rfl).2 (by decide) sampleTask rfl⟩

/-- C9: the canonical list-view ordering is an ascending stable sort of the
serialized tasks by the pair `(quadrant, due_date)`, with a missing
`due_date` read as the empty string, which compares lexically strictly below
every nonempty date string — so within a quadrant, tasks without a due date
come before every task with one. -/
theorem list_view_ordering (l : List TaskView) :
    (sortTasks l).Perm l ∧
    List.Sorted taskLE (sortTasks l) ∧
    (∀ a b : TaskView, a.quadrant = b.quadrant → a.due_date = none →
      ∀ d, b.due_date = some d → d ≠ "" → taskLE a b ∧ ¬ taskLE b a) := by
  refine ⟨List.perm_insertionSort taskLE l, List.sorted_insertionSort taskLE l, ?_⟩
  intro a b hq ha d hb hd
  have hka : (sortKey a).2 = "" := by simp [sortKey, ha]
  have hkb : (sortKey b).2 = d := by simp [sortKey, hb]
  have hk1 : (sortKey a).1 = (sortKey b).1 := by simp [sortKey, hq]
  constructor
  · exact Or.inr ⟨hk1, by rw [hka, hkb]; exact empty_string_le d⟩
  · intro hba
    rcases hba with hlt | ⟨_, hle⟩
    · rw [hk1] at hlt
      exact lt_irrefl _ hlt
    · rw [hka, hkb] at hle
      exact lt_irrefl ("" : String) (lt_of_lt_of_le (empty_string_lt hd) hle)

theorem list_view_ordering_witness :
    ((sortTasks [serialize_task sampleTask (staff_map [sampleStaff])]).Perm
      [serialize_task sampleTask (staff_map [sampleStaff])]) ∧
    List.Sorted taskLE (sortTasks [serialize_task sampleTask (staff_map [sampleStaff])]) ∧
    (taskLE (serialize_task sampleTask (staff_map [sampleStaff]))
        (serialize_task { sampleTask with due_date := some "2026-02-02" }
          (staff_map [sampleStaff])) ∧
      ¬ taskLE (serialize_task { sampleTask with due_date := some "2026-02-02" }
          (staff_map [sampleStaff]))
        (serialize_task sampleTask (staff_map [sampleStaff]))) :=
  ⟨(list_view_ordering [serialize_task sampleTask (staff_map [sampleStaff])]).1,
   (list_view_ordering [serialize_task sampleTask (staff_map [sampleStaff])]).2.1,
   (list_view_ordering []).2.2
     (serialize_task sampleTask (staff_map [sampleStaff]))
     (serialize_task { sampleTask with due_date := some "2026-02-02" }
       (staff_map [sampleStaff]))
     rfl rfl "2026-02-02" rfl (by decide)⟩

/-- C1 counterexample: contrary to the claim, the Record Store itself does
not enforce the quadrant range at `move_task`: called directly with
quadrant `0` on the task with id `1`, `DataRepository.move_task` succeeds,
returns the record with `quadrant = 0`, and persists that record — it does
not fail with ValidationFailed and does not leave `quadrant` unchanged. -/
theorem move_task_accepts_out_of_range_quadrant :
    (move_task sampleState 1 0).1 = Except.ok { sampleTask with quadrant := some 0 } ∧
    (move_task sampleState 1 0).2.tasks = [{ sampleTask with quadrant := some 0 }] ∧
    (move_task sampleState 1 0).1 ≠ Except.error Err.validationFailed := by
  have h1 : (move_task sampleState 1 0).1
      = Except.ok { sampleTask with quadrant := some 0 } := rfl
  exact ⟨h1, rfl, by rw [h1]; exact fun h => Except.noConfusion h⟩

/-- C1 (amended): the quadrant-range check for a move is enforced by the
caller's payload validation (`schemas.TaskQuadrantUpdate`, `ge=1 le=4`), not
by the Record Store: for any quadrant outside `[1,4]` the API-level move
fails with ValidationFailed before any mutation, leaving the whole store
(including the record's `quadrant`) unchanged, while
`DataRepository.move_task` itself accepts any integer and stores it. -/
theorem quadrant_range_checked_by_schema_not_store (s : RepoState) (id q : Int)
    (hq : q < 1 ∨ 4 < q) :
    apiMoveTask s id q = (Except.error Err.validationFailed, s) ∧
    (id ∈ s.tasks.map (·.id) →
      ∃ r s', move_task s id q = (Except.ok r, s') ∧ r.quadrant = some q) := by
  constructor
  · have hv : taskQuadrantUpdateValidate q = Except.error Err.validationFailed := by
      rw [taskQuadrantUpdateValidate, if_neg]
      omega
    rw [apiMoveTask, hv]
  · intro h
    obtain ⟨x, hx, hxid⟩ := List.mem_map.mp h
    obtain ⟨l', r, hu⟩ := updateFirst_of_mem (p := fun t => t.id == id)
      (f := fun t => { t with quadrant := some q }) ⟨x, hx, by simp [hxid]⟩
    obtain ⟨l₁, a, l₂, _, _, _, _, hr⟩ := updateFirst_eq_some hu
    exact ⟨r, persistTasks { s with tasks := l' }, by simp [move_task, hu],
      by rw [hr]⟩

theorem quadrant_range_checked_by_schema_not_store_witness :
    (apiMoveTask sampleState 1 0 = (Except.error Err.validationFailed, sampleState)) ∧
    (∃ r s', move_task sampleState 1 0 = (Except.ok r, s') ∧
      r.quadrant = some 0) :=
  ⟨(quadrant_range_checked_by_schema_not_store sampleState 1 0 (Or.inl (by decide))).1,
   (quadrant_range_checked_by_schema_not_store sampleState 1 0 (Or.inl (by decide))).2
     (by decide)⟩

end AIToDoList
